import Mathlib

/-!
Verification of the userver Redis shard router
(`src/redis/src/storages/redis/impl/shard.cpp`: Sentinel-mode `Shard`,
`ClusterShard` and the free function `GetStartIndex`).

The C++ code is shallowly embedded: the mutable shard state becomes a record,
each member function becomes a pure function from state (plus inputs) to state
(plus outputs), and side effects that the specification talks about — log
warnings, signal emissions, the write-back into `command->instance_idx` — are
reified as result fields.  `size_t` arithmetic is modelled as `Nat` with an
explicit `% 2^64` at the points where wrap-around can occur.
-/

namespace RedisShard

/-- Connection state of a Redis instance (`Redis::State`). -/
inductive RState where
  | kInit
  | kInitError
  | kConnected
  | kDisconnecting
  | kDisconnected
  | kDisconnectError
deriving DecidableEq, Repr

/-- Stable server identifier.  `ServerId::Any()` (id = -1) is the sentinel
meaning "no pin"; the code only ever asks `IsAny()` or compares ids. -/
structure ServerId where
  id : Int
deriving DecidableEq, Repr

def ServerId.Any : ServerId := ⟨-1⟩

def ServerId.IsAny (s : ServerId) : Bool := decide (s = ServerId.Any)

/-- The enum `CommandControl::Strategy`. -/
inductive Strategy where
  | kDefault
  | kEveryDc
  | kLocalDcConductor
  | kNearestServerPing
deriving DecidableEq, Repr

/-- The routing knobs of `CommandControl` that the shard router reads. -/
structure CommandControl where
  strategy : Strategy
  force_server_id : ServerId
  allow_reads_from_master : Bool
  best_dc_count : Nat
deriving DecidableEq, Repr

/-- The live side of one Redis connection (`Redis`), restricted to the surface
the router reads.  `accepts` reifies the boolean result of
`Redis::AsyncCommand` (whether this handle enqueues a command when the router
dispatches to it).  Handles are always created through `make_shared` in
`Shard::ProcessCreation` and are never null, so the defensive null checks of
the source are modelled away. -/
structure RedisInst where
  state : RState
  serverId : ServerId
  host : String
  port : Nat
  pingLatency : Nat
  runningCommands : Nat
  isDestroying : Bool
  isSyncing : Bool
  accepts : Bool
deriving DecidableEq, Repr

/-- The declared identity of an instance (`ConnectionInfoInt`). -/
structure ConnectionInfo where
  host : String
  port : Nat
  read_only : Bool
deriving DecidableEq, Repr

/-- Values of `ConnectionInfoInt` are stored and looked up in `std::set` by a key
that excludes `read_only`: `Shard::UpdateCleanWaitQueue` finds a still-present
info and then syncs a changed `read_only` flag in place, which is only possible
when the set comparator ignores that flag. -/
def ConnectionInfo.sameKey (a b : ConnectionInfo) : Bool :=
  decide (a.host = b.host ∧ a.port = b.port)

/-- Pairing of a declared info with its live handle (`ConnectionStatus`). -/
structure ConnectionStatus where
  info : ConnectionInfo
  inst : RedisInst
deriving DecidableEq, Repr

/-- The mutex-protected state of a Sentinel-mode `Shard`.  The string names
(`shard_name_`, `shard_group_name_`) only feed log lines and are omitted;
`last_*_time` fields hold abstract clock readings (`Nat`). -/
structure Shard where
  connection_infos : List ConnectionInfo
  instances : List ConnectionStatus
  clean_wait : List ConnectionStatus
  destroying : Bool
  current : Nat
  cluster_mode : Bool
  last_connected_time : Nat
  last_ready_time : Nat
  prev_connected : Bool
deriving DecidableEq, Repr

/-- The fields of `Command` that the router reads and writes. -/
structure Command where
  control : CommandControl
  read_only : Bool
  instance_idx : Nat
deriving DecidableEq, Repr

/-- The value `2^64`, the modulus of `size_t` arithmetic. -/
def SIZE_T_MOD : Nat := 2 ^ 64

/-- The largest `size_t` value; also the value of the expression `(size_t)-1`. -/
def SIZE_T_MAX : Nat := SIZE_T_MOD - 1

/-- Modelled from the spec: `SentinelImplBase::kDefaultPrevInstanceIdx` is
declared outside the embedded sources; per the spec `instance_idx` is the
caller-maintained "last tried" slot, and its default value marks "no previous
instance" (first try).  The code only compares against it for equality, so it
is modelled as the impossible index `(size_t)-1`. -/
def kDefaultPrevInstanceIdx : Nat := SIZE_T_MAX

/-- Insertion step of an insertion sort on (ping, index) pairs in lexicographic
order; models `std::sort` over `std::pair<size_t, size_t>` in
`Shard::GetNearestServersPing` (pairs with distinct indices are totally
ordered, so the sorted sequence is unique). -/
def insertPair (x : Nat × Nat) : List (Nat × Nat) → List (Nat × Nat)
  | [] => [x]
  | y :: ys =>
    if x.1 < y.1 ∨ (x.1 = y.1 ∧ x.2 ≤ y.2) then x :: y :: ys else y :: insertPair x ys

def sortPairs : List (Nat × Nat) → List (Nat × Nat)
  | [] => []
  | x :: xs => insertPair x (sortPairs xs)

/-- Role test used inside `Shard::GetNearestServersPing`:
`(with_slaves && info.read_only) || (with_masters && !info.read_only)`. -/
def roleMatches (info : ConnectionInfo) (with_masters with_slaves : Bool) : Bool :=
  (with_slaves && info.read_only) || (with_masters && !info.read_only)

/-- The marking loop of `Shard::GetNearestServersPing`: walk the ping-sorted
(ping, index) pairs and mark up to `count` role-matching instances. -/
def markNearest (instances : List ConnectionStatus) (wm ws : Bool) :
    List (Nat × Nat) → Nat → List Bool → List Bool
  | [], _, acc => acc
  | _ :: _, 0, acc => acc
  | p :: rest, Nat.succ c, acc =>
    match instances[p.2]? with
    | none => markNearest instances wm ws rest (Nat.succ c) acc
    | some cs =>
      if roleMatches cs.info wm ws then
        markNearest instances wm ws rest c (acc.set p.2 true)
      else markNearest instances wm ws rest (Nat.succ c) acc

/-- Embeds `Shard::GetNearestServersPing` (the availability mask for the
nearest-by-ping strategies), over the `instances_` snapshot. -/
def GetNearestServersPing (instances : List ConnectionStatus)
    (control : CommandControl) (with_masters with_slaves : Bool) : List Bool :=
  let count := if control.best_dc_count = 0 then instances.length else control.best_dc_count
  let sorted := sortPairs ((instances.enum).map (fun p => (p.2.inst.pingLatency, p.1)))
  markNearest instances with_masters with_slaves sorted count
    (List.replicate instances.length false)

/-- The `force_server_id` branch of `Shard::GetAvailableServers`: a one-hot
mask on the first instance whose server id matches, or an all-zero mask
together with the rate-limited "server_id not found in Redis shard" warning
(reified as the `Bool` second component). -/
def forcedServerMask (id : ServerId) : List ConnectionStatus → List Bool × Bool
  | [] => ([], true)
  | cs :: rest =>
    if cs.inst.serverId = id then (true :: List.replicate rest.length false, false)
    else
      let r := forcedServerMask id rest
      (false :: r.1, r.2)

/-- Embeds `Shard::GetAvailableServers` over the `instances_` snapshot.  Returns the
availability mask plus whether the "server_id not found" warning was logged. -/
def GetAvailableServers (instances : List ConnectionStatus) (control : CommandControl)
    (with_masters with_slaves : Bool) : List Bool × Bool :=
  if control.force_server_id.IsAny = false then
    forcedServerMask control.force_server_id instances
  else if control.strategy = Strategy.kEveryDc ∨ control.strategy = Strategy.kDefault then
    (instances.map (fun cs => if cs.info.read_only then with_slaves else with_masters), false)
  else
    (GetNearestServersPing instances control with_masters with_slaves, false)

/-- Least-loaded comparison of `Shard::GetInstance`:
`!instance || instance->IsDestroying() || cur->GetRunningCommands() < instance->GetRunningCommands()`. -/
def betterCandidate (acc : Option (RedisInst × Nat)) (inst : RedisInst) : Bool :=
  match acc with
  | none => true
  | some best => best.1.isDestroying || decide (inst.runningCommands < best.1.runningCommands)

/-- One iteration of the selection loop in `Shard::GetInstance`. -/
def giStep (instances : List ConnectionStatus) (avail : List Bool)
    (may_fallback_to_any : Bool) (skip_idx : Nat) (read_only : Bool) (cur : Nat)
    (acc : Option (RedisInst × Nat)) (i : Nat) : Option (RedisInst × Nat) :=
  let idx := (cur + i) % instances.length
  if idx = skip_idx then acc
  else
    match instances[idx]? with
    | none => acc
    | some cs =>
      if read_only = false ∧ cs.info.read_only = true then acc
      else if may_fallback_to_any = false ∧ avail.getD idx false = false then acc
      else if cs.inst.isDestroying = false ∧ cs.inst.state = RState.kConnected ∧
              betterCandidate acc cs.inst = true then some (cs.inst, idx)
      else acc

/-- Embeds `Shard::GetInstance`: scan all instances starting at `cur % size`, skipping
`skip_idx`, read-only instances for writable commands, and (unless falling back
to any) unavailable ones; among connected non-destroying handles keep the one
with the fewest running commands (first seen wins ties).  Returns the chosen
handle and the index written through `pinstance_idx`. -/
def GetInstance (instances : List ConnectionStatus) (avail : List Bool)
    (may_fallback_to_any : Bool) (skip_idx : Nat) (read_only : Bool) (cur : Nat) :
    Option (RedisInst × Nat) :=
  (List.range instances.length).foldl
    (giStep instances avail may_fallback_to_any skip_idx read_only cur) none

/-- Result of the attempt loop of `Shard::AsyncCommand`: success flag, final
value of the local `idx` variable (which is written into
`command->instance_idx` on every attempt), final `current_`, the list of
instance indices that were actually dispatched to (`instance->AsyncCommand`
called), and the number of "falling back to any server" warnings. -/
structure LoopRes where
  success : Bool
  idx : Nat
  cur : Nat
  dispatches : List Nat
  fallbackWarns : Nat
deriving DecidableEq, Repr

/-- The attempt loop of `Shard::AsyncCommand`, with the number of remaining
attempts as the recursion fuel.  `force_any` is
`command->control.force_server_id.IsAny()`. -/
def asyncLoop (instances : List ConnectionStatus) (avail : List Bool)
    (read_only force_any : Bool) (init_skip : Nat) :
    Nat → Nat → Nat → Nat → List Nat → Nat → LoopRes
  | 0, _, idx, cur, disp, fb => ⟨false, idx, cur, disp, fb⟩
  | Nat.succ remaining, attempt, idx, cur, disp, fb =>
    let skip := if attempt = 0 then init_skip else SIZE_T_MAX
    let mayFB := decide (attempt ≠ 0) && force_any
    let cur1 := cur + 1
    match GetInstance instances avail mayFB skip read_only cur1 with
    | none =>
      asyncLoop instances avail read_only force_any init_skip remaining
        (attempt + 1) idx cur1 disp fb
    | some (inst, i) =>
      let fb1 := if avail.length ≤ i ∨ avail.getD i false = false then fb + 1 else fb
      if inst.accepts then ⟨true, i, cur1, disp ++ [i], fb1⟩
      else
        asyncLoop instances avail read_only force_any init_skip remaining
          (attempt + 1) i cur1 (disp ++ [i]) fb1

/-- Result of one `Shard::AsyncCommand` call.  `instance_idx` is the final
value of `command->instance_idx`; `pinWarn` is the "server_id not found"
warning, `noServerWarn` the final "No Redis server is ready" warning. -/
structure AsyncResult where
  success : Bool
  instance_idx : Nat
  dispatches : List Nat
  pinWarn : Bool
  fallbackWarns : Nat
  noServerWarn : Bool
  current : Nat
deriving DecidableEq, Repr

/-- Embeds `Shard::AsyncCommand` (the `submit` operation of the spec). -/
def Shard.AsyncCommand (s : Shard) (cmd : Command) : AsyncResult :=
  if s.destroying then
    { success := false, instance_idx := cmd.instance_idx, dispatches := [],
      pinWarn := false, fallbackWarns := 0, noServerWarn := false, current := s.current }
  else
    let wm := !cmd.read_only || cmd.control.allow_reads_from_master
    let ws := cmd.read_only
    let am := GetAvailableServers s.instances cmd.control wm ws
    let maxA := s.instances.length + 1
    let r := asyncLoop s.instances am.1 cmd.read_only cmd.control.force_server_id.IsAny
      cmd.instance_idx maxA 0 0 s.current [] 0
    { success := r.success, instance_idx := r.idx, dispatches := r.dispatches,
      pinWarn := am.2, fallbackWarns := r.fallbackWarns, noServerWarn := !r.success,
      current := r.cur }

/-- Embeds `Shard::Clean`: under the exclusive lock set `destroying_` and empty both
containers (the swapped-out entries are destroyed after unlocking). -/
def Shard.Clean (s : Shard) : Shard :=
  { s with destroying := true, instances := [], clean_wait := [] }

/-- Key-membership test against `instances_` / `clean_wait_` used by the
`need_to_create.erase(instance.info)` calls of
`Shard::GetConnectionInfosToCreate` (`std::set::erase` removes by comparator
key). -/
def keyCovered (entries : List ConnectionStatus) (c : ConnectionInfo) : Bool :=
  entries.any (fun cs => cs.info.sameKey c)

/-- Embeds `Shard::GetConnectionInfosToCreate`: the desired infos whose key is not yet
represented in `instances_` or `clean_wait_`. -/
def Shard.GetConnectionInfosToCreate (s : Shard) : List ConnectionInfo :=
  s.connection_infos.filter (fun c =>
    !(keyCovered s.instances c) && !(keyCovered s.clean_wait c))

/-- A freshly constructed `Redis` handle (`make_shared<Redis>(pool,
cluster_mode_ && id.read_only)` followed by `Connect`): the connection starts
in state `kInit`; the constructor argument (`send_readonly`) and the buffering
settings and signal hookups are internal to the handle and not observable by
any routing or reconciliation decision, so they carry default values here. -/
def newRedis (send_readonly : Bool) : RedisInst :=
  { state := RState.kInit, serverId := ⟨0⟩, host := "", port := 0,
    pingLatency := 0, runningCommands := 0, isDestroying := false,
    isSyncing := send_readonly && false, accepts := false }

/-- One step of the `instances_` scan in `Shard::UpdateCleanWaitQueue`: drop an
entry whose info key vanished from `connection_infos_`; otherwise keep it,
syncing a changed `read_only` flag in place. -/
def ucwStep (connection_infos : List ConnectionInfo)
    (acc : List ConnectionStatus × Bool) (cs : ConnectionStatus) :
    List ConnectionStatus × Bool :=
  match connection_infos.find? (fun c => c.sameKey cs.info) with
  | none => (acc.1, true)
  | some c =>
    if c.read_only = cs.info.read_only then (acc.1 ++ [cs], acc.2)
    else (acc.1 ++ [{ cs with info := { cs.info with read_only := c.read_only } }], true)

/-- Result of a reconcile-create style operation: the new shard state plus the
`bool` return (whether the live set changed). -/
structure CreationRes where
  shard : Shard
  ret : Bool
deriving DecidableEq, Repr

/-- Embeds `Shard::UpdateCleanWaitQueue`: append the freshly created entries to
`clean_wait_`, then scan `instances_` dropping entries whose info left
`connection_infos_` and syncing in-place `read_only` changes. -/
def Shard.UpdateCleanWaitQueue (s : Shard) (add_clean_wait : List ConnectionStatus) :
    CreationRes :=
  let cw := s.clean_wait ++ add_clean_wait
  let scan := s.instances.foldl (ucwStep s.connection_infos) ([], false)
  { shard := { s with clean_wait := cw, instances := scan.1 }, ret := scan.2 }

/-- Embeds `Shard::ProcessCreation` (the spec's `reconcile_create`): create a
`clean_wait` entry for every desired info not yet represented, then run
`UpdateCleanWaitQueue`. -/
def Shard.ProcessCreation (s : Shard) : CreationRes :=
  let need := s.GetConnectionInfosToCreate
  let add := need.map (fun c =>
    { info := c, inst := newRedis (s.cluster_mode && c.read_only) : ConnectionStatus })
  s.UpdateCleanWaitQueue add

/-- A signal or callback emission observed during `Shard::ProcessStateUpdate`,
tagged with whether the exclusive state lock was held at the emission point. -/
inductive Emitted where
  | instanceReady (id : ServerId) (read_only : Bool) (under_lock : Bool)
  | readyChange (connected : Bool) (under_lock : Bool)
deriving DecidableEq, Repr

/-- Accumulator for the `clean_wait_` scan of `Shard::ProcessStateUpdate`. -/
structure CwAcc where
  instances : List ConnectionStatus
  clean_wait : List ConnectionStatus
  erase : List ConnectionStatus
  events : List Emitted
  last_connected : Nat
  changed : Bool
deriving DecidableEq, Repr

/-- One step of the `clean_wait_` scan of `Shard::ProcessStateUpdate`:
`kConnected` entries are promoted into `instances_` (updating
`last_connected_time_` and firing `signal_instance_ready_` while the lock is
held), `kInit` entries stay, the four terminal states are drained into the
local `erase_clean_wait`. -/
def cwStep (now : Nat) (acc : CwAcc) (cs : ConnectionStatus) : CwAcc :=
  if cs.inst.state = RState.kConnected then
    { acc with
      instances := acc.instances ++ [cs], changed := true, last_connected := now,
      events := acc.events ++ [Emitted.instanceReady cs.inst.serverId cs.info.read_only true] }
  else if cs.inst.state = RState.kInit then
    { acc with clean_wait := acc.clean_wait ++ [cs] }
  else
    { acc with erase := acc.erase ++ [cs] }

/-- Result of `Shard::ProcessStateUpdate`: new state, the emissions in program
order, and the `bool` return (`instances_changed`). -/
structure StateUpdateRes where
  shard : Shard
  events : List Emitted
  ret : Bool
deriving DecidableEq, Repr

/-- Embeds `Shard::ProcessStateUpdate` (the spec's `reconcile_state`).  `now` models
`std::chrono::steady_clock::now()`.  Phase 1 (under the lock) demotes
non-connected entries of `instances_` to the back of `clean_wait_`; phase 2
(still under the lock) scans `clean_wait_`, promoting, keeping or draining
each entry; finally — after the lock is released — the readiness-change
callback fires if `!instances_.empty()` flipped. -/
def Shard.ProcessStateUpdate (s : Shard) (now : Nat) : StateUpdateRes :=
  let keep := s.instances.filter (fun cs => decide (cs.inst.state = RState.kConnected))
  let demoted := s.instances.filter (fun cs => !decide (cs.inst.state = RState.kConnected))
  let cw1 := s.clean_wait ++ demoted
  let a := cw1.foldl (cwStep now)
    { instances := keep, clean_wait := [], erase := [], events := [],
      last_connected := s.last_connected_time, changed := !demoted.isEmpty }
  let new_connected := !a.instances.isEmpty
  let last_ready :=
    if !a.erase.isEmpty && decide (s.last_ready_time < a.last_connected) then now
    else s.last_ready_time
  let fire := s.prev_connected ≠ new_connected
  { shard := { s with
      instances := a.instances, clean_wait := a.clean_wait,
      last_connected_time := a.last_connected, last_ready_time := last_ready,
      prev_connected := if fire then new_connected else s.prev_connected },
    events := a.events ++ (if fire then [Emitted.readyChange new_connected false] else []),
    ret := a.changed }

/-- Key-deduplicating insertion, modelling `std::set<ConnectionInfoInt>`
construction from a vector (`Shard::SetConnectionInfo`). -/
def insertByKey (acc : List ConnectionInfo) (c : ConnectionInfo) : List ConnectionInfo :=
  if acc.any (fun x => x.sameKey c) then acc else acc ++ [c]

/-- Embeds `Shard::SetConnectionInfo`: replace the desired set when it differs;
returns whether it changed. -/
def Shard.SetConnectionInfo (s : Shard) (info_array : List ConnectionInfo) :
    Shard × Bool :=
  let new_info := info_array.foldl insertByKey []
  if new_info = s.connection_infos then (s, false)
  else ({ s with connection_infos := new_info }, true)

/-- The operations that mutate a `Shard` after construction: the event-thread
entry points, plus `mutateHandles`, which models the external world moving the
live handles through their connection states (it rewrites every handle, never
touching the shard's own fields). -/
inductive ShardOp where
  | clean
  | processCreation
  | processStateUpdate (now : Nat)
  | setConnectionInfo (info_array : List ConnectionInfo)
  | mutateHandles (f : RedisInst → RedisInst)

def applyOp (s : Shard) : ShardOp → Shard
  | ShardOp.clean => s.Clean
  | ShardOp.processCreation => s.ProcessCreation.shard
  | ShardOp.processStateUpdate now => (s.ProcessStateUpdate now).shard
  | ShardOp.setConnectionInfo a => (s.SetConnectionInfo a).1
  | ShardOp.mutateHandles f =>
    { s with
      instances := s.instances.map (fun cs => { cs with inst := f cs.inst }),
      clean_wait := s.clean_wait.map (fun cs => { cs with inst := f cs.inst }) }

/-- The enum `WaitConnectedMode`. -/
inductive WaitConnectedMode where
  | kNoWait
  | kMaster
  | kMasterOrSlave
  | kSlave
  | kMasterAndSlave
deriving DecidableEq, Repr

/-- Cluster-mode shard state: a master plus replicas supplied from outside.
The connection holders always wrap live (non-null) handles here, matching the
topology the cluster sentinel hands over. -/
structure ClusterShard where
  master : RedisInst
  replicas : List RedisInst
  current : Nat
  shard : Nat
deriving DecidableEq, Repr

/-- Anonymous-namespace helper `IsNearestServerPing`. -/
def isNearestServerPing (control : CommandControl) : Bool :=
  decide (control.strategy = Strategy.kLocalDcConductor ∨
    control.strategy = Strategy.kNearestServerPing)

def ClusterShard.IsMasterReady (cs : ClusterShard) : Bool :=
  decide (cs.master.state = RState.kConnected)

def ClusterShard.IsReplicaReady (cs : ClusterShard) : Bool :=
  cs.replicas.any (fun r => decide (r.state = RState.kConnected))

/-- Embeds `ClusterShard::IsReady`. -/
def ClusterShard.IsReady (cs : ClusterShard) : WaitConnectedMode → Bool
  | WaitConnectedMode.kNoWait => true
  | WaitConnectedMode.kMaster => cs.IsMasterReady
  | WaitConnectedMode.kMasterOrSlave => cs.IsMasterReady || cs.IsReplicaReady
  | WaitConnectedMode.kSlave => cs.IsReplicaReady
  | WaitConnectedMode.kMasterAndSlave => cs.IsMasterReady && cs.IsReplicaReady

/-- The slice of `ShardStatistics` that `ClusterShard::GetStatistics` fills
which the claims observe: the per-instance keys (`host:port`, in insertion
order) of the requested side, and the `is_ready` bit. -/
structure ClusterStats where
  instanceKeys : List String
  is_ready : Bool
deriving DecidableEq, Repr

def hostPort (r : RedisInst) : String := r.host ++ ":" ++ toString r.port

/-- Embeds `ClusterShard::GetStatistics`: statistics of the master (when `master` is
true) or of every replica, with `is_ready` set from
`IsReady(WaitConnectedMode::kMasterAndSlave)`. -/
def ClusterShard.GetStatistics (cs : ClusterShard) (master : Bool) : ClusterStats :=
  { instanceKeys := if master then [hostPort cs.master] else cs.replicas.map hostPort,
    is_ready := cs.IsReady WaitConnectedMode.kMasterAndSlave }

/-- Embeds `ClusterShard::GetAvailableServer` (the direct path): writable commands go
to the master unconditionally; pinned read-only commands linearly scan the
master and then the replicas for the matching server id, logging the
rate-limited "server_id not found" warning (second component) when absent. -/
def ClusterShard.GetAvailableServer (cs : ClusterShard) (control : CommandControl)
    (read_only : Bool) : Option RedisInst × Bool :=
  if read_only = false then (some cs.master, false)
  else if control.force_server_id.IsAny then (none, false)
  else if cs.master.serverId = control.force_server_id then (some cs.master, false)
  else
    match cs.replicas.find? (fun r => decide (r.serverId = control.force_server_id)) with
    | some r => (some r, false)
    | none => (none, true)

def ClusterShard.MakeReadonlyWithMasters (cs : ClusterShard) : List RedisInst :=
  cs.replicas ++ [cs.master]

/-- Models `std::partial_sort` in `ClusterShard::GetNearestServersPing`: the
first `min best_dc_count size` positions hold the nearest-by-ping instances in
ascending ping order.  C++ leaves ping ties and the tail order unspecified;
they are modelled as ping-then-original-position order with the unselected
instances following in their original order. -/
def clusterNearest (control : CommandControl) (l : List RedisInst) : List RedisInst :=
  let num := min control.best_dc_count l.length
  if num = 0 ∧ num = l.length then l
  else
    let sorted := sortPairs (l.enum.map (fun p => (p.2.pingLatency, p.1)))
    let chosen := (sorted.take num).map (fun p => p.2)
    let front := chosen.filterMap (fun i => l[i]?)
    let rest := (l.enum.filter (fun p => !chosen.contains p.1)).map (fun p => p.2)
    front ++ rest

/-- Embeds `ClusterShard::GetAvailableServers`: the candidate vector for read-only
unpinned routing; the master always sits last unless nearest-ping with
`allow_reads_from_master` sorted it forward. -/
def ClusterShard.GetAvailableServers (cs : ClusterShard) (control : CommandControl) :
    List RedisInst :=
  if isNearestServerPing control = false then cs.MakeReadonlyWithMasters
  else if control.allow_reads_from_master then
    clusterNearest control cs.MakeReadonlyWithMasters
  else clusterNearest control cs.replicas ++ [cs.master]

/-- The free function `GetStartIndex`, with `size_t` arithmetic made explicit:
the decrement `servers_count - 1` and the index sums wrap modulo `2^64`. -/
def GetStartIndex (control : CommandControl) (attempt : Nat)
    (is_nearest_ping_server : Bool) (prev_instance_idx current servers_count : Nat) :
    Nat :=
  let allow_reads_from_master := control.allow_reads_from_master
  let best_dc_count := if control.best_dc_count = 0 then SIZE_T_MAX else control.best_dc_count
  let first_attempt := decide (attempt = 0)
  let first_try := decide (prev_instance_idx = kDefaultPrevInstanceIdx)
  let sc := if first_try && first_attempt && !allow_reads_from_master then
      max ((servers_count + SIZE_T_MAX) % SIZE_T_MOD) 1
    else servers_count
  if is_nearest_ping_server then
    ((attempt + (if first_try = true then current % min best_dc_count sc
                 else prev_instance_idx + 1)) % SIZE_T_MOD) % sc
  else if first_try = true then ((current + attempt) % SIZE_T_MOD) % sc
  else ((prev_instance_idx + 1 + attempt) % SIZE_T_MOD) % sc

/-- Embeds `ClusterShard::GetInstance`: on the first attempt of a nearest-ping command
with a nonzero `best_dc_count` only the nearest window is scanned; otherwise
the whole candidate vector, choosing the least-loaded connected,
non-destroying, non-syncing instance. -/
def ClusterShard.GetInstance (instances : List RedisInst) (start_idx attempt : Nat)
    (is_nearest_ping_server : Bool) (best_dc_count : Nat) : Option (RedisInst × Nat) :=
  let e := if is_nearest_ping_server ∧ attempt = 0 ∧ best_dc_count ≠ 0 then
      min instances.length best_dc_count
    else instances.length
  (List.range e).foldl
    (fun acc i =>
      let idx := (start_idx + i) % e
      match instances[idx]? with
      | none => acc
      | some cur =>
        if cur.isDestroying = false ∧ cur.state = RState.kConnected ∧
            cur.isSyncing = false ∧ betterCandidate acc cur = true then some (cur, idx)
        else acc)
    none

/-- The attempt loop of `ClusterShard::AsyncCommand` (read-only, unpinned
path).  `command->instance_idx` is threaded through because `GetStartIndex`
reads it and a failed dispatch writes it back.  Returns success, the final
`instance_idx`, and the dispatched instances in order. -/
def clusterLoop (available : List RedisInst) (control : CommandControl)
    (is_nearest : Bool) (current : Nat) :
    Nat → Nat → Nat → List RedisInst → Bool × Nat × List RedisInst
  | 0, _, iidx, disp => (false, iidx, disp)
  | Nat.succ remaining, attempt, iidx, disp =>
    let start_idx := GetStartIndex control attempt is_nearest iidx current available.length
    match ClusterShard.GetInstance available start_idx attempt is_nearest
        control.best_dc_count with
    | none => clusterLoop available control is_nearest current remaining (attempt + 1) iidx disp
    | some (inst, idx) =>
      if inst.accepts then (true, idx, disp ++ [inst])
      else clusterLoop available control is_nearest current remaining (attempt + 1) idx
        (disp ++ [inst])

/-- Result of one `ClusterShard::AsyncCommand` call. -/
structure ClusterAsyncResult where
  success : Bool
  instance_idx : Nat
  dispatches : List RedisInst
  pinWarn : Bool
  noServerWarn : Bool
deriving DecidableEq, Repr

/-- Embeds `ClusterShard::AsyncCommand`: writable or pinned commands take the direct
path through `GetAvailableServer`; read-only unpinned commands run the
round-robin attempt loop over the candidate vector. -/
def ClusterShard.AsyncCommand (cs : ClusterShard) (cmd : Command) : ClusterAsyncResult :=
  if !cmd.read_only || !cmd.control.force_server_id.IsAny then
    match cs.GetAvailableServer cmd.control cmd.read_only with
    | (some inst, w) =>
      { success := inst.accepts, instance_idx := cmd.instance_idx,
        dispatches := [inst], pinWarn := w, noServerWarn := false }
    | (none, w) =>
      { success := false, instance_idx := cmd.instance_idx,
        dispatches := [], pinWarn := w, noServerWarn := false }
  else
    let current := cs.current
    let available := cs.GetAvailableServers cmd.control
    let is_nearest := isNearestServerPing cmd.control
    let max_attempts := cs.replicas.length + 1 + 1
    let r := clusterLoop available cmd.control is_nearest current max_attempts 0
      cmd.instance_idx []
    { success := r.1, instance_idx := r.2.1, dispatches := r.2.2,
      pinWarn := false, noServerWarn := !r.1 }

/-- What `Shard::GetInstance` guarantees about a returned (handle, index)
pair: the guards of its selection loop. -/
def SelectedOk (instances : List ConnectionStatus) (avail : List Bool)
    (mfb : Bool) (ro : Bool) (inst : RedisInst) (i : Nat) : Prop :=
  ∃ cs, instances[i]? = some cs ∧ cs.inst = inst ∧ inst.isDestroying = false ∧
    inst.state = RState.kConnected ∧ (ro = false → cs.info.read_only = false) ∧
    (mfb = false → avail.getD i false = true)

/-- An `instances_` entry that `Shard::UpdateCleanWaitQueue` leaves alone: its
info key is still desired and its `read_only` flag agrees with the desired
set. -/
def Synced (ci : List ConnectionInfo) (cs : ConnectionStatus) : Prop :=
  ∃ c, ci.find? (fun c => c.sameKey cs.info) = some c ∧
    c.read_only = cs.info.read_only

/-! ### Concrete states used by counterexamples and witnesses -/

def cInstConnected : RedisInst :=
  { state := RState.kConnected, serverId := ⟨5⟩, host := "a", port := 1,
    pingLatency := 1, runningCommands := 0, isDestroying := false, isSyncing := false,
    accepts := true }

def cInfoA : ConnectionInfo := { host := "a", port := 1, read_only := false }

def cInfoB : ConnectionInfo := { host := "b", port := 2, read_only := true }

def cEntryConnected : ConnectionStatus := { info := cInfoA, inst := cInstConnected }

def cShard1 : Shard :=
  { connection_infos := [cInfoA], instances := [cEntryConnected], clean_wait := [],
    destroying := false, current := 0, cluster_mode := false,
    last_connected_time := 10, last_ready_time := 5, prev_connected := true }

def cControlPin7 : CommandControl :=
  { strategy := Strategy.kDefault, force_server_id := ⟨7⟩,
    allow_reads_from_master := false, best_dc_count := 0 }

def cControlPin5 : CommandControl :=
  { strategy := Strategy.kDefault, force_server_id := ⟨5⟩,
    allow_reads_from_master := false, best_dc_count := 0 }

def cControlNoPin : CommandControl :=
  { strategy := Strategy.kDefault, force_server_id := ServerId.Any,
    allow_reads_from_master := false, best_dc_count := 0 }

/-- A command pinned to an id that no instance of `cShard1` carries, with a
caller-maintained `instance_idx` of 3. -/
def cCmdPinMissing : Command :=
  { control := cControlPin7, read_only := false, instance_idx := 3 }

def cCmdPin5Read : Command :=
  { control := cControlPin5, read_only := true, instance_idx := kDefaultPrevInstanceIdx }

def cCmdWrite : Command :=
  { control := cControlNoPin, read_only := false, instance_idx := kDefaultPrevInstanceIdx }

def cInstDisconnecting : RedisInst := { cInstConnected with state := RState.kDisconnecting }

def cEntryDisconnecting : ConnectionStatus := { info := cInfoA, inst := cInstDisconnecting }

/-- Shard whose only live instance has just left `kConnected`. -/
def cShardDemote : Shard := { cShard1 with instances := [cEntryDisconnecting] }

/-- Shard about to promote a freshly connected `clean_wait` entry. -/
def cShardPromote : Shard :=
  { cShard1 with
    instances := [], clean_wait := [cEntryConnected], prev_connected := false }

def cInstInit : RedisInst := { cInstConnected with state := RState.kInit }

def cEntryStale : ConnectionStatus := { info := cInfoA, inst := cInstInit }

/-- Shard with a `clean_wait` entry whose info is no longer desired. -/
def cShardStale : Shard :=
  { cShard1 with
    connection_infos := [], instances := [], clean_wait := [cEntryStale] }

def cInstMasterDestroying : RedisInst := { cInstConnected with isDestroying := true }

def cInstReplica : RedisInst :=
  { cInstConnected with serverId := ⟨6⟩, host := "b", port := 2 }

def cEntryMasterDestroying : ConnectionStatus :=
  { info := cInfoA, inst := cInstMasterDestroying }

def cEntryReplica : ConnectionStatus := { info := cInfoB, inst := cInstReplica }

/-- Shard whose single master is destroying while its replica is Connected. -/
def cShardMD : Shard :=
  { cShard1 with instances := [cEntryMasterDestroying, cEntryReplica] }

/-- Cluster shard whose master has server id 5 and no replicas. -/
def cCluster : ClusterShard :=
  { master := cInstConnected, replicas := [], current := 0, shard := 0 }

/-- A writable command pinned to id 7 (which `cCluster`'s master does not carry). -/
def cCmdPinWrite : Command := { control := cControlPin7, read_only := false, instance_idx := 0 }

/-! ### Helper lemmas -/

theorem foldl_inv {α β : Type} (step : β → α → β) (P : β → Prop) :
    ∀ (l : List α) (b : β), P b → (∀ b a, a ∈ l → P b → P (step b a)) →
      P (l.foldl step b) := by
  intro l
  induction l with
  | nil => intro b hb _; exact hb
  | cons a t ih =>
    intro b hb hstep
    exact ih (step b a) (hstep b a (List.mem_cons_self a t) hb)
      (fun b' a' ha' hb' => hstep b' a' (List.mem_cons_of_mem a ha') hb')

theorem replicate_getD_false : ∀ (n i : Nat), (List.replicate n false).getD i false = false := by
  intro n
  induction n with
  | zero => intro i; cases i <;> rfl
  | succ m ih =>
    intro i
    cases i with
    | zero => rfl
    | succ j => exact ih j

theorem SIZE_T_MOD_val : SIZE_T_MOD = 18446744073709551616 := by
  norm_num [SIZE_T_MOD]

/-! ### C10 -/

/-- C10: `ClusterShard::GetStatistics` sets the returned `is_ready` bit to the
`kMasterAndSlave` readiness condition (master Connected AND some replica
Connected), regardless of which side the statistics were requested for; hence
a shard with a connected master but no connected replica reports
`is_ready = false` even for its master-side statistics. -/
theorem cluster_stats_ready_bit (cs : ClusterShard) (master_side : Bool) :
    (cs.GetStatistics master_side).is_ready = (cs.IsMasterReady && cs.IsReplicaReady) :=
  rfl

/-! ### C8 -/

theorem applyOp_destroying (s : Shard) (op : ShardOp) (h : s.destroying = true) :
    (applyOp s op).destroying = true := by
  cases op with
  | clean => rfl
  | processCreation =>
    simp only [applyOp, Shard.ProcessCreation, Shard.UpdateCleanWaitQueue]
    exact h
  | processStateUpdate now =>
    simp only [applyOp, Shard.ProcessStateUpdate]
    exact h
  | setConnectionInfo a =>
    simp only [applyOp, Shard.SetConnectionInfo]
    split <;> exact h
  | mutateHandles f =>
    simp only [applyOp]
    exact h

theorem foldl_destroying (ops : List ShardOp) :
    ∀ (t : Shard), t.destroying = true → (ops.foldl applyOp t).destroying = true := by
  induction ops with
  | nil => intro t ht; exact ht
  | cons op t ih =>
    intro u hu
    exact ih (applyOp u op) (applyOp_destroying u op hu)

/-- C8: once `Clean()` has set the destroying flag, every subsequent `submit`
returns false, whatever other operations (reconciles, topology updates,
external handle-state changes) run in between: the flag is never reset. -/
theorem closed_door (s : Shard) (ops : List ShardOp) (cmd : Command) :
    ((ops.foldl applyOp (applyOp s ShardOp.clean)).AsyncCommand cmd).success = false ∧
      (ops.foldl applyOp (applyOp s ShardOp.clean)).destroying = true := by
  have h2 : (ops.foldl applyOp (applyOp s ShardOp.clean)).destroying = true :=
    foldl_destroying ops _ rfl
  refine ⟨?_, h2⟩
  simp [Shard.AsyncCommand, h2]

/-! ### Counterexamples -/

/-- C1 counterexample: in `ClusterShard`, a *writable* command with
`force_server_id = 7` is handed straight to the master (server id 5) and
succeeds there — the pin is ignored on the writable path, so "submit either
succeeds against exactly the instance whose server id equals force_server_id
or returns false" is false as a statement about every command with a pin. -/
theorem pin_respected_counterexample :
    (cCluster.AsyncCommand cCmdPinWrite).success = true ∧
      (cCluster.AsyncCommand cCmdPinWrite).dispatches = [cInstConnected] ∧
      cInstConnected.serverId ≠ cCmdPinWrite.control.force_server_id := by
  refine ⟨rfl, rfl, ?_⟩
  decide

/-- C3 counterexample: with `force_server_id = 7` absent from `cShard1` and the
caller's `command.instance_idx = 3`, `submit` returns false but *overwrites*
`instance_idx` with 0 (the loop's local default), so "leaves the caller's
`command.instance_idx` unchanged" is false. -/
theorem pinned_id_missing_counterexample :
    (cShard1.AsyncCommand cCmdPinMissing).success = false ∧
      (cShard1.AsyncCommand cCmdPinMissing).instance_idx = 0 ∧
      cCmdPinMissing.instance_idx = 3 := by
  refine ⟨rfl, rfl, rfl⟩

/-- C4 counterexample: `cShardStale` holds a `clean_wait` entry whose info was
removed from `connection_infos`; one `reconcile_create` pass leaves it in
`clean_wait` untouched — the reconciliation does *not* drop stale entries
"from wherever they reside": it only scans `instances`. -/
theorem membership_counterexample :
    cShardStale.connection_infos = [] ∧
      cShardStale.ProcessCreation.shard.clean_wait = [cEntryStale] ∧
      cShardStale.ProcessCreation.ret = false := by
  refine ⟨rfl, rfl, rfl⟩

/-- C6 counterexample: demoting the single Disconnecting instance does *not*
leave it residing in `clean_wait`: the same `reconcile_state` pass drains it
(Disconnecting is one of the terminal drain states of the clean-wait scan),
so both containers end empty. -/
theorem reconcile_demotion_counterexample :
    (cShardDemote.ProcessStateUpdate 20).shard.instances = [] ∧
      (cShardDemote.ProcessStateUpdate 20).shard.clean_wait = [] := by
  refine ⟨rfl, rfl⟩

/-- C9 counterexample: promoting the freshly connected entry of
`cShardPromote` emits `on_instance_ready` *while the state lock is held*
(`under_lock = true`); only the readiness-change callback runs after release.
So "no signal or callback is invoked while reconcile_state holds the lock" is
false. -/
theorem signal_lock_counterexample :
    (cShardPromote.ProcessStateUpdate 20).events =
      [Emitted.instanceReady ⟨5⟩ false true, Emitted.readyChange true false] := by
  rfl

/-! ### C5: the start-index function -/

/-- C5: `GetStartIndex` realises exactly the case split the spec states.  With
`size_t` wrap-around excluded by the stated bounds (all call sites satisfy
them: `servers_count = replicas + 1 ≥ 1` and `attempt ≤ replicas + 2`):
the effective count is the candidate count reduced by 1 (clamped at 1) exactly
on a first try's first attempt with reads-from-master disabled; nearest-ping
uses `current mod min(best_dc_count, effective_count)` (0 meaning unbounded)
on the first try's first attempt and `(prev + 1 + attempt) mod count` on
retries; other strategies use `(current + attempt) mod effective_count` on
first try and `(prev + 1 + attempt) mod count` on retry. -/
theorem start_index_spec (control : CommandControl) (nearest : Bool)
    (attempt prev current count : Nat)
    (h1 : 0 < count) (h2 : count < SIZE_T_MOD)
    (h3 : current + attempt < SIZE_T_MOD)
    (h4 : prev ≠ kDefaultPrevInstanceIdx → prev + 1 + attempt < SIZE_T_MOD) :
    (prev = kDefaultPrevInstanceIdx → nearest = true → attempt = 0 →
      GetStartIndex control attempt nearest prev current count =
        current %
          (if control.best_dc_count = 0 then
            (if control.allow_reads_from_master = false then max (count - 1) 1 else count)
          else min control.best_dc_count
            (if control.allow_reads_from_master = false then max (count - 1) 1 else count)) %
          (if control.allow_reads_from_master = false then max (count - 1) 1 else count))
    ∧ (prev ≠ kDefaultPrevInstanceIdx → nearest = true →
      GetStartIndex control attempt nearest prev current count = (prev + 1 + attempt) % count)
    ∧ (prev = kDefaultPrevInstanceIdx → nearest = false →
      GetStartIndex control attempt nearest prev current count =
        (current + attempt) %
          (if attempt = 0 ∧ control.allow_reads_from_master = false then max (count - 1) 1
           else count))
    ∧ (prev ≠ kDefaultPrevInstanceIdx → nearest = false →
      GetStartIndex control attempt nearest prev current count =
        (prev + 1 + attempt) % count) := by
  have hmod : SIZE_T_MOD = 18446744073709551616 := SIZE_T_MOD_val
  have hmax : SIZE_T_MAX = 18446744073709551615 := by
    norm_num [SIZE_T_MAX, SIZE_T_MOD]
  have h2n : count < 18446744073709551616 := by rw [hmod] at h2; exact h2
  have hsub : (count + SIZE_T_MAX) % SIZE_T_MOD = count - 1 := by
    rw [hmax, hmod]; omega
  have heffle : max (count - 1) 1 ≤ count := by omega
  have hmaxle : ∀ m : Nat, m ≤ count → min SIZE_T_MAX m = m := by
    intro m hmc
    exact Nat.min_eq_right (by rw [hmax]; omega)
  refine ⟨?_, ?_, ?_, ?_⟩
  · intro hp hn ha
    subst hn; subst ha
    by_cases hm : control.allow_reads_from_master = true
    · by_cases hb : control.best_dc_count = 0
      · simp only [GetStartIndex, hp, hm, hb, hsub]
        simp only [decide_eq_true_eq, if_pos rfl]
        simp [hmaxle count (Nat.le_refl count), Nat.mod_eq_of_lt (Nat.lt_trans
          (Nat.mod_lt current h1) h2)]
      · simp only [GetStartIndex, hp, hm, hb, hsub]
        simp only [decide_eq_true_eq, if_neg hb, if_pos rfl]
        simp
        have hlt : current % min control.best_dc_count count < SIZE_T_MOD := by
          have : current % min control.best_dc_count count ≤ current := Nat.mod_le _ _
          omega
        rw [Nat.mod_eq_of_lt hlt]
    · have hm' : control.allow_reads_from_master = false := by
        cases hcm : control.allow_reads_from_master
        · rfl
        · exact absurd hcm hm
      by_cases hb : control.best_dc_count = 0
      · simp only [GetStartIndex, hp, hm', hb, hsub]
        simp only [decide_eq_true_eq, if_pos rfl]
        simp [hmaxle (max (count - 1) 1) heffle]
        have hlt : current % max (count - 1) 1 < SIZE_T_MOD := by
          have h0 : 0 < max (count - 1) 1 := by omega
          have := Nat.mod_lt current h0
          omega
        rw [Nat.mod_eq_of_lt hlt]
        exact Nat.mod_eq_of_lt (Nat.mod_lt _ (by omega))
      · simp only [GetStartIndex, hp, hm', hb, hsub]
        simp only [decide_eq_true_eq, if_neg hb, if_pos rfl]
        simp
        have hlt : current % min control.best_dc_count (max (count - 1) 1) < SIZE_T_MOD := by
          have : current % min control.best_dc_count (max (count - 1) 1) ≤ current :=
            Nat.mod_le _ _
          omega
        rw [Nat.mod_eq_of_lt hlt]
  · intro hp hn
    subst hn
    have hft : decide (prev = kDefaultPrevInstanceIdx) = false := decide_eq_false hp
    simp only [GetStartIndex, hft]
    simp
    have : attempt + (prev + 1) = prev + 1 + attempt := by omega
    rw [this, Nat.mod_eq_of_lt (h4 hp)]
  · intro hp hn
    subst hn
    by_cases ha : attempt = 0
    · subst ha
      have h3' : current < SIZE_T_MOD := by omega
      by_cases hm : control.allow_reads_from_master = true
      · simp only [GetStartIndex, hp, hm, hsub]
        simp [Nat.mod_eq_of_lt h3', hm]
      · have hm' : control.allow_reads_from_master = false := by
          cases hcm : control.allow_reads_from_master
          · rfl
          · exact absurd hcm hm
        simp only [GetStartIndex, hp, hm', hsub]
        simp [Nat.mod_eq_of_lt h3', hm']
    · simp only [GetStartIndex, hp, hsub]
      simp [Nat.mod_eq_of_lt h3, ha]
  · intro hp hn
    subst hn
    have hft : decide (prev = kDefaultPrevInstanceIdx) = false := decide_eq_false hp
    simp only [GetStartIndex, hft]
    simp
    rw [Nat.mod_eq_of_lt (h4 hp)]

/-! ### Selection-loop lemmas for `Shard::AsyncCommand` -/

theorem giStep_spec (instances : List ConnectionStatus) (avail : List Bool)
    (mfb : Bool) (skip : Nat) (ro : Bool) (cur : Nat)
    (acc : Option (RedisInst × Nat)) (j : Nat)
    (hacc : ∀ inst i, acc = some (inst, i) → SelectedOk instances avail mfb ro inst i) :
    ∀ inst i, giStep instances avail mfb skip ro cur acc j = some (inst, i) →
      SelectedOk instances avail mfb ro inst i := by
  intro inst i h
  simp only [giStep] at h
  by_cases h1 : (cur + j) % instances.length = skip
  · rw [if_pos h1] at h
    exact hacc inst i h
  · rw [if_neg h1] at h
    cases hidx : instances[(cur + j) % instances.length]? with
    | none => simp only [hidx] at h; exact hacc inst i h
    | some cs =>
      simp only [hidx] at h
      by_cases h2 : ro = false ∧ cs.info.read_only = true
      · rw [if_pos h2] at h; exact hacc inst i h
      · rw [if_neg h2] at h
        by_cases h3 : mfb = false ∧ avail.getD ((cur + j) % instances.length) false = false
        · rw [if_pos h3] at h; exact hacc inst i h
        · rw [if_neg h3] at h
          by_cases h4 : cs.inst.isDestroying = false ∧ cs.inst.state = RState.kConnected ∧
              betterCandidate acc cs.inst = true
          · rw [if_pos h4] at h
            simp only [Option.some.injEq, Prod.mk.injEq] at h
            obtain ⟨hinst, hi⟩ := h
            subst hinst; subst hi
            refine ⟨cs, hidx, rfl, h4.1, h4.2.1, ?_, ?_⟩
            · intro hro
              cases hr : cs.info.read_only
              · rfl
              · exact absurd ⟨hro, hr⟩ h2
            · intro hmfb
              cases hav : avail.getD ((cur + j) % instances.length) false
              · exact absurd ⟨hmfb, hav⟩ h3
              · rfl
          · rw [if_neg h4] at h; exact hacc inst i h

theorem GetInstance_spec (instances : List ConnectionStatus) (avail : List Bool)
    (mfb : Bool) (skip : Nat) (ro : Bool) (cur : Nat) (inst : RedisInst) (i : Nat)
    (h : GetInstance instances avail mfb skip ro cur = some (inst, i)) :
    SelectedOk instances avail mfb ro inst i := by
  have hmain := foldl_inv (giStep instances avail mfb skip ro cur)
    (fun acc => ∀ inst i, acc = some (inst, i) → SelectedOk instances avail mfb ro inst i)
    (List.range instances.length) none
    (fun _ _ hx => nomatch hx)
    (fun b a _ hb => giStep_spec instances avail mfb skip ro cur b a hb)
  exact hmain inst i h

theorem GetInstance_none_of_unavail (instances : List ConnectionStatus)
    (avail : List Bool) (skip : Nat) (ro : Bool) (cur : Nat)
    (hav : ∀ i, avail.getD i false = false) :
    GetInstance instances avail false skip ro cur = none := by
  cases hgi : GetInstance instances avail false skip ro cur with
  | none => rfl
  | some p =>
    obtain ⟨inst, i⟩ := p
    obtain ⟨cs, _, _, _, _, _, havi⟩ := GetInstance_spec _ _ _ _ _ _ _ _ hgi
    have hx := havi rfl
    rw [hav i] at hx
    exact Bool.noConfusion hx

theorem GetInstance_none_of_destroying (instances : List ConnectionStatus)
    (avail : List Bool) (mfb : Bool) (skip : Nat) (cur : Nat)
    (hro : ∀ cs ∈ instances, cs.info.read_only = false → cs.inst.isDestroying = true) :
    GetInstance instances avail mfb skip false cur = none := by
  cases hgi : GetInstance instances avail mfb skip false cur with
  | none => rfl
  | some p =>
    obtain ⟨inst, i⟩ := p
    obtain ⟨cs, hmem, hinst, hdes, _, hrole, _⟩ := GetInstance_spec _ _ _ _ _ _ _ _ hgi
    have hcs : cs ∈ instances := List.getElem?_mem hmem
    have hd := hro cs hcs (hrole rfl)
    rw [hinst, hdes] at hd
    exact Bool.noConfusion hd

theorem asyncLoop_dispatches (instances : List ConnectionStatus) (avail : List Bool)
    (ro fa : Bool) (skip0 : Nat) (Q : Nat → Prop)
    (hQ : ∀ mfb skip cur inst i, (mfb = true → fa = true) →
      GetInstance instances avail mfb skip ro cur = some (inst, i) → Q i) :
    ∀ (fuel attempt idx cur : Nat) (disp : List Nat) (fb : Nat),
      (∀ i ∈ disp, Q i) →
      ∀ j ∈ (asyncLoop instances avail ro fa skip0 fuel attempt idx cur disp fb).dispatches,
        Q j := by
  intro fuel
  induction fuel with
  | zero => intro attempt idx cur disp fb hdisp j hj; exact hdisp j hj
  | succ n ih =>
    intro attempt idx cur disp fb hdisp j hj
    simp only [asyncLoop] at hj
    cases hgi : GetInstance instances avail (decide (attempt ≠ 0) && fa)
        (if attempt = 0 then skip0 else SIZE_T_MAX) ro (cur + 1) with
    | none =>
      simp only [hgi] at hj
      exact ih (attempt + 1) idx (cur + 1) disp fb hdisp j hj
    | some p =>
      obtain ⟨inst, i⟩ := p
      simp only [hgi] at hj
      have hQi : Q i :=
        hQ _ _ _ _ _ (fun hmt => by simp only [Bool.and_eq_true] at hmt; exact hmt.2) hgi
      have hdisp' : ∀ x ∈ disp ++ [i], Q x := by
        intro x hx
        rcases List.mem_append.mp hx with hx | hx
        · exact hdisp x hx
        · rw [List.mem_singleton.mp hx]; exact hQi
      by_cases hacc : inst.accepts = true
      · rw [if_pos hacc] at hj
        exact hdisp' j hj
      · rw [if_neg hacc] at hj
        exact ih (attempt + 1) i (cur + 1) (disp ++ [i])
          (if avail.length ≤ i ∨ avail.getD i false = false then fb + 1 else fb) hdisp' j hj

theorem asyncLoop_none (instances : List ConnectionStatus) (avail : List Bool)
    (ro fa : Bool) (skip0 : Nat)
    (h : ∀ mfb skip cur, GetInstance instances avail mfb skip ro cur = none) :
    ∀ (fuel attempt idx cur : Nat) (disp : List Nat) (fb : Nat),
      asyncLoop instances avail ro fa skip0 fuel attempt idx cur disp fb =
        ⟨false, idx, cur + fuel, disp, fb⟩ := by
  intro fuel
  induction fuel with
  | zero => intro attempt idx cur disp fb; rfl
  | succ n ih =>
    intro attempt idx cur disp fb
    simp only [asyncLoop, h]
    rw [ih (attempt + 1) idx (cur + 1) disp fb]
    have : cur + 1 + n = cur + (n + 1) := by omega
    rw [this]

theorem asyncLoop_none_pinned (instances : List ConnectionStatus) (avail : List Bool)
    (ro : Bool) (skip0 : Nat)
    (h : ∀ skip cur, GetInstance instances avail false skip ro cur = none) :
    ∀ (fuel attempt idx cur : Nat) (disp : List Nat) (fb : Nat),
      asyncLoop instances avail ro false skip0 fuel attempt idx cur disp fb =
        ⟨false, idx, cur + fuel, disp, fb⟩ := by
  intro fuel
  induction fuel with
  | zero => intro attempt idx cur disp fb; rfl
  | succ n ih =>
    intro attempt idx cur disp fb
    simp only [asyncLoop, Bool.and_false, h]
    rw [ih (attempt + 1) idx (cur + 1) disp fb]
    have : cur + 1 + n = cur + (n + 1) := by omega
    rw [this]

/-! ### Lemmas about the pinned availability mask -/

theorem forcedServerMask_not_found (id : ServerId) :
    ∀ (l : List ConnectionStatus), (∀ cs ∈ l, cs.inst.serverId ≠ id) →
      forcedServerMask id l = (List.replicate l.length false, true) := by
  intro l
  induction l with
  | nil => intro _; rfl
  | cons cs t ih =>
    intro hl
    have hcs : cs.inst.serverId ≠ id := hl cs (List.mem_cons_self cs t)
    simp only [forcedServerMask, if_neg hcs]
    rw [ih (fun x hx => hl x (List.mem_cons_of_mem cs hx))]
    rfl

theorem forcedServerMask_getD (id : ServerId) :
    ∀ (l : List ConnectionStatus) (i : Nat),
      (forcedServerMask id l).1.getD i false = true →
      ∃ cs, l[i]? = some cs ∧ cs.inst.serverId = id := by
  intro l
  induction l with
  | nil => intro i h; exact Bool.noConfusion h
  | cons cs t ih =>
    intro i h
    by_cases hcs : cs.inst.serverId = id
    · simp only [forcedServerMask, if_pos hcs] at h
      cases i with
      | zero => exact ⟨cs, List.getElem?_cons_zero, hcs⟩
      | succ j =>
        have hj : (List.replicate t.length false).getD j false = true := h
        rw [replicate_getD_false t.length j] at hj
        exact Bool.noConfusion hj
    · simp only [forcedServerMask, if_neg hcs] at h
      cases i with
      | zero => exact Bool.noConfusion h
      | succ j =>
        obtain ⟨cs', hmem, hid⟩ := ih j h
        exact ⟨cs', by rw [List.getElem?_cons_succ]; exact hmem, hid⟩

/-! ### C1 -/

/-- C1 (amended): when `force_server_id` is set, the Sentinel-mode
`Shard::AsyncCommand` only ever dispatches to an instance whose server id
equals the pin (the availability mask is one-hot on the first match and
`may_fallback_to_any` stays false), so `submit` either succeeds against that
server or returns false.  In `ClusterShard` the same holds for *read-only*
pinned commands (linear scan of master and replicas); a *writable* pinned
command is handed to the master with the pin ignored. -/
theorem pin_respected_amended (s : Shard) (cmd : Command) (ccs : ClusterShard)
    (hpin : cmd.control.force_server_id.IsAny = false) :
    (∀ i ∈ (s.AsyncCommand cmd).dispatches,
      ∃ cs, s.instances[i]? = some cs ∧
        cs.inst.serverId = cmd.control.force_server_id)
    ∧ (cmd.read_only = true →
      ∀ inst ∈ (ccs.AsyncCommand cmd).dispatches,
        inst.serverId = cmd.control.force_server_id) := by
  constructor
  · by_cases hd : s.destroying = true
    · intro i hi
      simp [Shard.AsyncCommand, hd] at hi
    · have hd' : s.destroying = false := by
        cases hx : s.destroying
        · rfl
        · exact absurd hx hd
      intro i hi
      have hGA : GetAvailableServers s.instances cmd.control
          (!cmd.read_only || cmd.control.allow_reads_from_master) cmd.read_only =
          forcedServerMask cmd.control.force_server_id s.instances := by
        rw [GetAvailableServers, if_pos hpin]
      simp only [Shard.AsyncCommand, hd', Bool.false_eq_true, if_false, hGA] at hi
      refine asyncLoop_dispatches s.instances
        (forcedServerMask cmd.control.force_server_id s.instances).1 cmd.read_only
        cmd.control.force_server_id.IsAny cmd.instance_idx
        (fun i => ∃ cs, s.instances[i]? = some cs ∧
          cs.inst.serverId = cmd.control.force_server_id) ?_
        (s.instances.length + 1) 0 0 s.current [] 0 (fun x hx => nomatch hx) i hi
      intro mfb skip cur inst i hmf hgi
      have hmfb : mfb = false := by
        cases hx : mfb
        · rfl
        · rw [hpin] at hmf; exact absurd (hmf hx) Bool.noConfusion
      obtain ⟨cs, hmem, hinst, _, _, _, hav⟩ := GetInstance_spec _ _ _ _ _ _ _ _ hgi
      obtain ⟨cs', hmem', hid'⟩ := forcedServerMask_getD _ s.instances i (hav hmfb)
      refine ⟨cs', hmem', hid'⟩
  · intro hro inst hmem
    have hcond : (!cmd.read_only || !cmd.control.force_server_id.IsAny) = true := by
      rw [hro, hpin]; rfl
    simp only [ClusterShard.AsyncCommand, hcond, if_pos] at hmem
    by_cases hm : ccs.master.serverId = cmd.control.force_server_id
    · have hGA : ccs.GetAvailableServer cmd.control cmd.read_only =
          (some ccs.master, false) := by
        rw [ClusterShard.GetAvailableServer, if_neg (by rw [hro]; exact fun h => Bool.noConfusion h),
          if_neg (by rw [hpin]; exact Bool.noConfusion), if_pos hm]
      simp only [hGA] at hmem
      rw [List.mem_singleton.mp hmem]
      exact hm
    · cases hf : ccs.replicas.find?
          (fun r => decide (r.serverId = cmd.control.force_server_id)) with
      | some r =>
        have hGA : ccs.GetAvailableServer cmd.control cmd.read_only = (some r, false) := by
          rw [ClusterShard.GetAvailableServer, if_neg (by rw [hro]; exact fun h => Bool.noConfusion h),
            if_neg (by rw [hpin]; exact Bool.noConfusion), if_neg hm, hf]
        simp only [hGA] at hmem
        rw [List.mem_singleton.mp hmem]
        have hps := List.find?_some hf
        simp only [decide_eq_true_eq] at hps
        exact hps
      | none =>
        have hGA : ccs.GetAvailableServer cmd.control cmd.read_only = (none, true) := by
          rw [ClusterShard.GetAvailableServer, if_neg (by rw [hro]; exact fun h => Bool.noConfusion h),
            if_neg (by rw [hpin]; exact Bool.noConfusion), if_neg hm, hf]
        simp only [hGA] at hmem
        exact absurd hmem (List.not_mem_nil inst)

/-- Witness for C1 at a shard whose instance 0 carries the pinned id 5 and a
cluster whose master carries id 5, with a read-only command pinned to 5. -/
theorem pin_respected_witness :
    (∃ cs, cShard1.instances[0]? = some cs ∧
      cs.inst.serverId = cCmdPin5Read.control.force_server_id) ∧
    cInstConnected.serverId = cCmdPin5Read.control.force_server_id := by
  have h := pin_respected_amended cShard1 cCmdPin5Read cCluster (by decide)
  exact ⟨h.1 0 (by decide), h.2 rfl cInstConnected (by decide)⟩

/-! ### C2 -/

/-- C2: for a writable command, Sentinel `submit` never dispatches to (hence
never succeeds against) an instance whose `info.read_only` is true — on every
attempt, fallback included (the role check in `GetInstance` does not depend on
`may_fallback_to_any`); moreover when every non-read-only instance is
destroying (e.g. a shard whose single master is destroying while its replicas
are all Connected), a writable submit returns false. -/
theorem writable_role_filtering (s : Shard) (cmd : Command)
    (hro : cmd.read_only = false) :
    (∀ i ∈ (s.AsyncCommand cmd).dispatches,
      ∃ cs, s.instances[i]? = some cs ∧ cs.info.read_only = false)
    ∧ ((∀ cs ∈ s.instances, cs.info.read_only = false → cs.inst.isDestroying = true) →
      (s.AsyncCommand cmd).success = false) := by
  constructor
  · by_cases hd : s.destroying = true
    · intro i hi
      simp [Shard.AsyncCommand, hd] at hi
    · have hd' : s.destroying = false := by
        cases hx : s.destroying
        · rfl
        · exact absurd hx hd
      intro i hi
      simp only [Shard.AsyncCommand, hd', Bool.false_eq_true, if_false] at hi
      refine asyncLoop_dispatches s.instances _ cmd.read_only
        cmd.control.force_server_id.IsAny cmd.instance_idx
        (fun i => ∃ cs, s.instances[i]? = some cs ∧ cs.info.read_only = false) ?_
        (s.instances.length + 1) 0 0 s.current [] 0 (fun x hx => nomatch hx) i hi
      intro mfb skip cur inst i _ hgi
      obtain ⟨cs, hmem, _, _, _, hrole, _⟩ := GetInstance_spec _ _ _ _ _ _ _ _ hgi
      exact ⟨cs, hmem, hrole hro⟩
  · intro hdes
    by_cases hd : s.destroying = true
    · simp [Shard.AsyncCommand, hd]
    · have hd' : s.destroying = false := by
        cases hx : s.destroying
        · rfl
        · exact absurd hx hd
      have hnone : ∀ mfb skip cur,
          GetInstance s.instances
            (GetAvailableServers s.instances cmd.control
              (!cmd.read_only || cmd.control.allow_reads_from_master) cmd.read_only).1
            mfb skip cmd.read_only cur = none := by
        intro mfb skip cur
        rw [hro]
        exact GetInstance_none_of_destroying _ _ _ _ _ hdes
      simp only [Shard.AsyncCommand, hd', Bool.false_eq_true, if_false]
      rw [asyncLoop_none _ _ _ _ _ hnone (s.instances.length + 1) 0 0 s.current [] 0]

/-- Witness for C2: in `cShardMD` (master destroying, replica Connected but
read-only) a writable submit returns false. -/
theorem writable_role_filtering_witness :
    (cShardMD.AsyncCommand cCmdWrite).success = false :=
  (writable_role_filtering cShardMD cCmdWrite rfl).2 (by decide)

/-! ### C3 -/

/-- C3 (amended): when no instance carries the pinned id (and the shard is not
destroying), `submit` returns false, emits the rate-limited "server_id not
found" warning (once — the availability mask is computed once per call) plus
the final "no Redis server is ready" warning, performs no dispatch and no
"falling back" warning, and *sets `command.instance_idx` to 0* — the never
written local `idx` default — rather than leaving it unchanged. -/
theorem pinned_id_missing_amended (s : Shard) (cmd : Command)
    (hd : s.destroying = false)
    (hpin : cmd.control.force_server_id.IsAny = false)
    (hmiss : ∀ cs ∈ s.instances, cs.inst.serverId ≠ cmd.control.force_server_id) :
    (s.AsyncCommand cmd).success = false ∧
    (s.AsyncCommand cmd).pinWarn = true ∧
    (s.AsyncCommand cmd).noServerWarn = true ∧
    (s.AsyncCommand cmd).instance_idx = 0 ∧
    (s.AsyncCommand cmd).dispatches = [] ∧
    (s.AsyncCommand cmd).fallbackWarns = 0 := by
  have hmask := forcedServerMask_not_found cmd.control.force_server_id s.instances hmiss
  have hGA : GetAvailableServers s.instances cmd.control
      (!cmd.read_only || cmd.control.allow_reads_from_master) cmd.read_only =
      (List.replicate s.instances.length false, true) := by
    rw [GetAvailableServers, if_pos hpin, hmask]
  have hnone : ∀ skip cur,
      GetInstance s.instances (List.replicate s.instances.length false) false skip
        cmd.read_only cur = none :=
    fun skip cur => GetInstance_none_of_unavail _ _ _ _ _
      (fun i => replicate_getD_false _ i)
  have hloop := asyncLoop_none_pinned s.instances
    (List.replicate s.instances.length false) cmd.read_only cmd.instance_idx hnone
    (s.instances.length + 1) 0 0 s.current [] 0
  simp only [Shard.AsyncCommand, hd, Bool.false_eq_true, if_false, hGA, hpin, hloop]
  simp

/-- Witness for C3 at `cShard1` (only id 5) and a command pinned to id 7 with
`instance_idx = 3`. -/
theorem pinned_id_missing_witness :
    (cShard1.AsyncCommand cCmdPinMissing).success = false ∧
    (cShard1.AsyncCommand cCmdPinMissing).pinWarn = true ∧
    (cShard1.AsyncCommand cCmdPinMissing).noServerWarn = true ∧
    (cShard1.AsyncCommand cCmdPinMissing).instance_idx = 0 ∧
    (cShard1.AsyncCommand cCmdPinMissing).dispatches = [] ∧
    (cShard1.AsyncCommand cCmdPinMissing).fallbackWarns = 0 :=
  pinned_id_missing_amended cShard1 cCmdPinMissing rfl (by decide) (by decide)

/-- Witness for C5 at `attempt = 0`, `current = 5`, `count = 3`, first try with
reads-from-master disabled: the start index is `5 % max (3-1) 1 = 1`. -/
theorem start_index_spec_witness :
    GetStartIndex cControlNoPin 0 false kDefaultPrevInstanceIdx 5 3 = 1 := by
  have h := (start_index_spec cControlNoPin false 0 kDefaultPrevInstanceIdx 5 3
    (by decide) (by decide) (by decide) (fun hne => absurd rfl hne)).2.2.1 rfl rfl
  rw [h]
  decide

/-! ### C4 -/

theorem sameKey_refl (a : ConnectionInfo) : a.sameKey a = true :=
  decide_eq_true ⟨rfl, rfl⟩

theorem sameKey_symm (a b : ConnectionInfo) : a.sameKey b = b.sameKey a := by
  simp only [ConnectionInfo.sameKey]
  by_cases h : a.host = b.host ∧ a.port = b.port
  · rw [decide_eq_true h, decide_eq_true ⟨h.1.symm, h.2.symm⟩]
  · rw [decide_eq_false h, decide_eq_false (fun hx => h ⟨hx.1.symm, hx.2.symm⟩)]

theorem sameKey_trans (a b c : ConnectionInfo) (h1 : a.sameKey b = true)
    (h2 : b.sameKey c = true) : a.sameKey c = true := by
  have p1 := of_decide_eq_true h1
  have p2 := of_decide_eq_true h2
  exact decide_eq_true ⟨p1.1.trans p2.1, p1.2.trans p2.2⟩

theorem ucwStep_member_inv (ci : List ConnectionInfo)
    (acc : List ConnectionStatus × Bool) (cs : ConnectionStatus)
    (h : ∀ x ∈ acc.1, ∃ c ∈ ci, c.sameKey x.info = true) :
    ∀ x ∈ (ucwStep ci acc cs).1, ∃ c ∈ ci, c.sameKey x.info = true := by
  intro x hx
  simp only [ucwStep] at hx
  cases hf : ci.find? (fun c => c.sameKey cs.info) with
  | none => simp only [hf] at hx; exact h x hx
  | some c =>
    simp only [hf] at hx
    have hcmem : c ∈ ci := List.mem_of_find?_eq_some hf
    have hck := List.find?_some hf
    by_cases hro : c.read_only = cs.info.read_only
    · rw [if_pos hro] at hx
      rcases List.mem_append.mp hx with hx | hx
      · exact h x hx
      · rw [List.mem_singleton.mp hx]
        exact ⟨c, hcmem, hck⟩
    · rw [if_neg hro] at hx
      rcases List.mem_append.mp hx with hx | hx
      · exact h x hx
      · rw [List.mem_singleton.mp hx]
        exact ⟨c, hcmem, hck⟩

/-- C4 (amended): after `reconcile_create`, every entry of `instances` has its
info key-matching a member of `connection_infos` (entries whose info vanished
were dropped from `instances`), but entries sitting in `clean_wait` are *not*
checked: whatever was in `clean_wait` before the call — including entries
whose info left `connection_infos` — is still in `clean_wait` afterwards;
such stale entries are only drained once their handle reaches a terminal
state. -/
theorem membership_after_creation (s : Shard) :
    (∀ cs ∈ s.ProcessCreation.shard.instances,
      ∃ c ∈ s.connection_infos, c.sameKey cs.info = true)
    ∧ ∀ cs ∈ s.clean_wait, cs ∈ s.ProcessCreation.shard.clean_wait := by
  constructor
  · intro cs hcs
    have hfold := foldl_inv (ucwStep s.connection_infos)
      (fun acc => ∀ x ∈ acc.1, ∃ c ∈ s.connection_infos, c.sameKey x.info = true)
      s.instances ([], false)
      (fun x hx => absurd hx (List.not_mem_nil x))
      (fun b a _ hb => ucwStep_member_inv s.connection_infos b a hb)
    simp only [Shard.ProcessCreation, Shard.UpdateCleanWaitQueue] at hcs
    exact hfold cs hcs
  · intro cs hcs
    simp only [Shard.ProcessCreation, Shard.UpdateCleanWaitQueue]
    exact List.mem_append_left _ hcs

/-- Witness for C4 at `cShard1`: the surviving instance's info key-matches a
desired info, and the (empty) prior clean_wait is preserved. -/
theorem membership_after_creation_witness :
    ∃ c ∈ cShard1.connection_infos, c.sameKey cEntryConnected.info = true :=
  (membership_after_creation cShard1).1 cEntryConnected (by decide)

/-! ### C6 -/

/-- C6 (amended): from `{instances = [a], clean_wait = []}` with handle-a in
state Disconnecting, one `reconcile_state` call empties `instances` and — in
the same pass — *drains* handle-a out of `clean_wait` (Disconnecting is one of
the terminal drain states, so the entry does not remain in `clean_wait`);
given the shard had been ready (`last_ready_time < last_connected_time`) and
previously connected, the readiness-change callback fires exactly once with
`false` and `last_ready_time` advances to the current clock. -/
theorem reconcile_demotion_amended (ci : List ConnectionInfo) (a : ConnectionStatus)
    (cur lct lrt now : Nat) (cm : Bool)
    (hstate : a.inst.state = RState.kDisconnecting)
    (htime : lrt < lct) :
    ((Shard.mk ci [a] [] false cur cm lct lrt true).ProcessStateUpdate now).shard.instances
        = [] ∧
    ((Shard.mk ci [a] [] false cur cm lct lrt true).ProcessStateUpdate now).shard.clean_wait
        = [] ∧
    ((Shard.mk ci [a] [] false cur cm lct lrt true).ProcessStateUpdate now).events
        = [Emitted.readyChange false false] ∧
    ((Shard.mk ci [a] [] false cur cm lct lrt
        true).ProcessStateUpdate now).shard.last_ready_time = now ∧
    ((Shard.mk ci [a] [] false cur cm lct lrt true).ProcessStateUpdate now).ret = true := by
  have hnc : ¬(a.inst.state = RState.kConnected) := by
    rw [hstate]; exact fun h => RState.noConfusion h
  have hni : ¬(a.inst.state = RState.kInit) := by
    rw [hstate]; exact fun h => RState.noConfusion h
  simp [Shard.ProcessStateUpdate, cwStep, hnc, hni, htime]

/-- Witness for C6 at the concrete disconnecting entry. -/
theorem reconcile_demotion_witness :
    ((Shard.mk [cInfoA] [cEntryDisconnecting] [] false 0 false 10 5
        true).ProcessStateUpdate 20).shard.clean_wait = [] ∧
    ((Shard.mk [cInfoA] [cEntryDisconnecting] [] false 0 false 10 5
        true).ProcessStateUpdate 20).events = [Emitted.readyChange false false] := by
  have h := reconcile_demotion_amended [cInfoA] cEntryDisconnecting 0 10 5 20 false rfl
    (by decide)
  exact ⟨h.2.1, h.2.2.1⟩

/-! ### C9 -/

theorem cwStep_events_inv (now : Nat) (acc : CwAcc) (cs : ConnectionStatus)
    (h : ∀ e ∈ acc.events,
      (∀ id ro lk, e = Emitted.instanceReady id ro lk → lk = true) ∧
      (∀ b lk, e = Emitted.readyChange b lk → lk = false)) :
    ∀ e ∈ (cwStep now acc cs).events,
      (∀ id ro lk, e = Emitted.instanceReady id ro lk → lk = true) ∧
      (∀ b lk, e = Emitted.readyChange b lk → lk = false) := by
  intro e he
  simp only [cwStep] at he
  by_cases h1 : cs.inst.state = RState.kConnected
  · rw [if_pos h1] at he
    rcases List.mem_append.mp he with hx | hx
    · exact h e hx
    · rw [List.mem_singleton.mp hx]
      constructor
      · intro id ro lk heq
        injection heq with h1 h2 h3
        exact h3.symm
      · intro b lk heq
        exact Emitted.noConfusion heq
  · rw [if_neg h1] at he
    by_cases h2 : cs.inst.state = RState.kInit
    · rw [if_pos h2] at he
      exact h e he
    · rw [if_neg h2] at he
      exact h e he

/-- C9 (amended): during `reconcile_state`, the readiness-change callback is
indeed emitted only after the state lock has been released, but
`on_instance_ready` is emitted *while the lock is held* — the promotion loop
fires `signal_instance_ready_` inside the `unique_lock` scope, without
capturing it for deferred emission. -/
theorem signal_lock_status (s : Shard) (now : Nat) (id : ServerId)
    (ro b lk lk2 : Bool) :
    (Emitted.instanceReady id ro lk ∈ (s.ProcessStateUpdate now).events → lk = true) ∧
    (Emitted.readyChange b lk2 ∈ (s.ProcessStateUpdate now).events → lk2 = false) := by
  have hfold := foldl_inv (cwStep now)
    (fun acc => ∀ e ∈ acc.events,
      (∀ id ro lk, e = Emitted.instanceReady id ro lk → lk = true) ∧
      (∀ b lk, e = Emitted.readyChange b lk → lk = false))
    (s.clean_wait ++ s.instances.filter (fun cs => !decide (cs.inst.state = RState.kConnected)))
    { instances := s.instances.filter (fun cs => decide (cs.inst.state = RState.kConnected)),
      clean_wait := [], erase := [], events := [],
      last_connected := s.last_connected_time,
      changed := !(s.instances.filter
        (fun cs => !decide (cs.inst.state = RState.kConnected))).isEmpty }
    (fun e he => absurd he (List.not_mem_nil e))
    (fun bAcc aCs _ hb => cwStep_events_inv now bAcc aCs hb)
  constructor
  · intro hmem
    simp only [Shard.ProcessStateUpdate] at hmem
    rcases List.mem_append.mp hmem with hx | hx
    · exact (hfold _ hx).1 id ro lk rfl
    · split at hx
      · exact Emitted.noConfusion (List.mem_singleton.mp hx)
      · exact absurd hx (List.not_mem_nil _)
  · intro hmem
    simp only [Shard.ProcessStateUpdate] at hmem
    rcases List.mem_append.mp hmem with hx | hx
    · exact (hfold _ hx).2 b lk2 rfl
    · split at hx
      · have h12 := List.mem_singleton.mp hx
        injection h12 with h1 h2
      · exact absurd hx (List.not_mem_nil _)

/-- Witness for C9: the concrete promotion in `cShardPromote` yields both an
under-lock `on_instance_ready` emission and an outside-lock readiness-change
emission. -/
theorem signal_lock_status_witness : true = true ∧ false = false :=
  ⟨(signal_lock_status cShardPromote 20 ⟨5⟩ false true true false).1 (by decide),
   (signal_lock_status cShardPromote 20 ⟨5⟩ false true true false).2 (by decide)⟩

/-! ### C7: idempotence of the two reconcile passes -/

theorem cwFold_instances_connected (now : Nat) (l : List ConnectionStatus) (acc : CwAcc)
    (h : ∀ cs ∈ acc.instances, cs.inst.state = RState.kConnected) :
    ∀ cs ∈ (l.foldl (cwStep now) acc).instances, cs.inst.state = RState.kConnected := by
  refine foldl_inv (cwStep now)
    (fun acc => ∀ cs ∈ acc.instances, cs.inst.state = RState.kConnected) l acc h ?_
  intro b a _ hb cs hcs
  simp only [cwStep] at hcs
  by_cases h1 : a.inst.state = RState.kConnected
  · rw [if_pos h1] at hcs
    rcases List.mem_append.mp hcs with hx | hx
    · exact hb cs hx
    · rw [List.mem_singleton.mp hx]; exact h1
  · rw [if_neg h1] at hcs
    by_cases h2 : a.inst.state = RState.kInit
    · rw [if_pos h2] at hcs; exact hb cs hcs
    · rw [if_neg h2] at hcs; exact hb cs hcs

theorem cwFold_clean_wait_init (now : Nat) (l : List ConnectionStatus) (acc : CwAcc)
    (h : ∀ cs ∈ acc.clean_wait, cs.inst.state = RState.kInit) :
    ∀ cs ∈ (l.foldl (cwStep now) acc).clean_wait, cs.inst.state = RState.kInit := by
  refine foldl_inv (cwStep now)
    (fun acc => ∀ cs ∈ acc.clean_wait, cs.inst.state = RState.kInit) l acc h ?_
  intro b a _ hb cs hcs
  simp only [cwStep] at hcs
  by_cases h1 : a.inst.state = RState.kConnected
  · rw [if_pos h1] at hcs; exact hb cs hcs
  · rw [if_neg h1] at hcs
    by_cases h2 : a.inst.state = RState.kInit
    · rw [if_pos h2] at hcs
      rcases List.mem_append.mp hcs with hx | hx
      · exact hb cs hx
      · rw [List.mem_singleton.mp hx]; exact h2
    · rw [if_neg h2] at hcs; exact hb cs hcs

theorem cwFold_all_init (now : Nat) :
    ∀ (l : List ConnectionStatus), (∀ cs ∈ l, cs.inst.state = RState.kInit) →
      ∀ (acc : CwAcc), l.foldl (cwStep now) acc =
        { acc with clean_wait := acc.clean_wait ++ l } := by
  intro l
  induction l with
  | nil => intro _ acc; simp
  | cons a t ih =>
    intro hl acc
    have ha : a.inst.state = RState.kInit := hl a (List.mem_cons_self a t)
    have hnc : ¬(a.inst.state = RState.kConnected) := by
      rw [ha]; exact fun h => RState.noConfusion h
    simp only [List.foldl_cons]
    have hstep : cwStep now acc a = { acc with clean_wait := acc.clean_wait ++ [a] } := by
      simp only [cwStep, if_neg hnc, if_pos ha]
    rw [hstep, ih (fun x hx => hl x (List.mem_cons_of_mem a hx))]
    simp [List.append_assoc]

theorem processStateUpdate_shape (s : Shard) (now : Nat) :
    (∀ cs ∈ (s.ProcessStateUpdate now).shard.instances,
      cs.inst.state = RState.kConnected) ∧
    (∀ cs ∈ (s.ProcessStateUpdate now).shard.clean_wait,
      cs.inst.state = RState.kInit) ∧
    ((s.ProcessStateUpdate now).shard.prev_connected =
      !(s.ProcessStateUpdate now).shard.instances.isEmpty) := by
  refine ⟨?_, ?_, ?_⟩
  · intro cs hcs
    simp only [Shard.ProcessStateUpdate] at hcs
    refine cwFold_instances_connected now _ _ ?_ cs hcs
    intro x hx
    have hm := List.mem_filter.mp hx
    simpa using hm.2
  · intro cs hcs
    simp only [Shard.ProcessStateUpdate] at hcs
    refine cwFold_clean_wait_init now _ _ ?_ cs hcs
    intro x hx
    exact absurd hx (List.not_mem_nil x)
  · simp only [Shard.ProcessStateUpdate]
    split
    · rfl
    · next hne => exact not_ne_iff.mp hne

theorem processStateUpdate_fixed (t : Shard) (now : Nat)
    (hI : ∀ cs ∈ t.instances, cs.inst.state = RState.kConnected)
    (hC : ∀ cs ∈ t.clean_wait, cs.inst.state = RState.kInit)
    (hP : t.prev_connected = !t.instances.isEmpty) :
    t.ProcessStateUpdate now = ⟨t, [], false⟩ := by
  have hkeep : t.instances.filter
      (fun cs => decide (cs.inst.state = RState.kConnected)) = t.instances := by
    apply List.filter_eq_self.mpr
    intro a ha
    simpa using hI a ha
  have hdem : t.instances.filter
      (fun cs => !decide (cs.inst.state = RState.kConnected)) = [] := by
    apply List.filter_eq_nil_iff.mpr
    intro a ha
    simpa using hI a ha
  simp only [Shard.ProcessStateUpdate, hkeep, hdem, List.append_nil]
  rw [cwFold_all_init now t.clean_wait hC]
  simp [hP]
  rw [← hP]

theorem processStateUpdate_idem (s : Shard) (now1 now2 : Nat) :
    ((s.ProcessStateUpdate now1).shard.ProcessStateUpdate now2).shard =
        (s.ProcessStateUpdate now1).shard ∧
    ((s.ProcessStateUpdate now1).shard.ProcessStateUpdate now2).ret = false := by
  obtain ⟨hI, hC, hP⟩ := processStateUpdate_shape s now1
  rw [processStateUpdate_fixed _ now2 hI hC hP]
  exact ⟨rfl, rfl⟩

theorem sameKey_update_right (a i : ConnectionInfo) (r : Bool) :
    a.sameKey { i with read_only := r } = a.sameKey i := rfl

theorem sameKey_update_left (i : ConnectionInfo) (r : Bool) (j : ConnectionInfo) :
    ConnectionInfo.sameKey { i with read_only := r } j = i.sameKey j := rfl

theorem ucwStep_synced (ci : List ConnectionInfo) (acc : List ConnectionStatus × Bool)
    (cs : ConnectionStatus) (h : ∀ x ∈ acc.1, Synced ci x) :
    ∀ x ∈ (ucwStep ci acc cs).1, Synced ci x := by
  intro x hx
  simp only [ucwStep] at hx
  cases hf : ci.find? (fun c => c.sameKey cs.info) with
  | none => simp only [hf] at hx; exact h x hx
  | some c =>
    simp only [hf] at hx
    by_cases hro : c.read_only = cs.info.read_only
    · rw [if_pos hro] at hx
      rcases List.mem_append.mp hx with hx | hx
      · exact h x hx
      · rw [List.mem_singleton.mp hx]
        exact ⟨c, hf, hro⟩
    · rw [if_neg hro] at hx
      rcases List.mem_append.mp hx with hx | hx
      · exact h x hx
      · rw [List.mem_singleton.mp hx]
        exact ⟨c, hf, rfl⟩

theorem processCreation_synced (s : Shard) :
    ∀ cs ∈ s.ProcessCreation.shard.instances, Synced s.connection_infos cs := by
  intro cs hcs
  have hfold := foldl_inv (ucwStep s.connection_infos)
    (fun acc => ∀ x ∈ acc.1, Synced s.connection_infos x)
    s.instances ([], false)
    (fun x hx => absurd hx (List.not_mem_nil x))
    (fun b a _ hb => ucwStep_synced s.connection_infos b a hb)
  simp only [Shard.ProcessCreation, Shard.UpdateCleanWaitQueue] at hcs
  exact hfold cs hcs

theorem ucwFold_acc_mono (ci : List ConnectionInfo) :
    ∀ (l : List ConnectionStatus) (acc : List ConnectionStatus × Bool)
      (x : ConnectionStatus), x ∈ acc.1 → x ∈ (l.foldl (ucwStep ci) acc).1 := by
  intro l
  induction l with
  | nil => intro acc x hx; exact hx
  | cons a t ih =>
    intro acc x hx
    apply ih
    cases hf : ci.find? (fun c => c.sameKey a.info) with
    | none =>
      simp only [ucwStep, hf]
      exact hx
    | some c =>
      simp only [ucwStep, hf]
      by_cases hro : c.read_only = a.info.read_only
      · rw [if_pos hro]; exact List.mem_append_left _ hx
      · rw [if_neg hro]; exact List.mem_append_left _ hx

theorem ucwFold_covers (ci : List ConnectionInfo) :
    ∀ (l : List ConnectionStatus) (acc : List ConnectionStatus × Bool)
      (e : ConnectionStatus), e ∈ l →
      (ci.find? (fun c => c.sameKey e.info)).isSome = true →
      ∃ x ∈ (l.foldl (ucwStep ci) acc).1, x.info.sameKey e.info = true := by
  intro l
  induction l with
  | nil => intro acc e he _; exact absurd he (List.not_mem_nil e)
  | cons a t ih =>
    intro acc e he hf
    rcases List.mem_cons.mp he with rfl | he'
    · obtain ⟨c, hc⟩ := Option.isSome_iff_exists.mp hf
      by_cases hro : c.read_only = e.info.read_only
      · have hstep : ucwStep ci acc e = (acc.1 ++ [e], acc.2) := by
          simp only [ucwStep, hc, if_pos hro]
        have hmem : e ∈ (ucwStep ci acc e).1 := by
          rw [hstep]
          exact List.mem_append_right _ (List.mem_singleton_self e)
        exact ⟨e, ucwFold_acc_mono ci t (ucwStep ci acc e) e hmem, sameKey_refl e.info⟩
      · have hstep : ucwStep ci acc e =
            (acc.1 ++ [{ e with info := { e.info with read_only := c.read_only } }],
              true) := by
          simp only [ucwStep, hc, if_neg hro]
        have hmem : ({ e with info := { e.info with read_only := c.read_only } } :
            ConnectionStatus) ∈ (ucwStep ci acc e).1 := by
          rw [hstep]
          exact List.mem_append_right _ (List.mem_singleton_self _)
        refine ⟨_, ucwFold_acc_mono ci t (ucwStep ci acc e) _ hmem, ?_⟩
        exact sameKey_refl e.info
    · exact ih (ucwStep ci acc a) e he' hf

theorem processCreation_covers (s : Shard) :
    ∀ c ∈ s.connection_infos,
      keyCovered s.ProcessCreation.shard.instances c = true ∨
      keyCovered s.ProcessCreation.shard.clean_wait c = true := by
  intro c hc
  by_cases h1 : keyCovered s.instances c = true
  · left
    obtain ⟨e, he, hek⟩ := List.any_eq_true.mp h1
    have hsome : (s.connection_infos.find? (fun c' => c'.sameKey e.info)).isSome = true := by
      apply List.find?_isSome.mpr
      refine ⟨c, hc, ?_⟩
      rw [sameKey_symm]
      exact hek
    obtain ⟨e', he', hk'⟩ :=
      ucwFold_covers s.connection_infos s.instances ([], false) e he hsome
    apply List.any_eq_true.mpr
    refine ⟨e', ?_, sameKey_trans e'.info e.info c hk' hek⟩
    simp only [Shard.ProcessCreation, Shard.UpdateCleanWaitQueue]
    exact he'
  · right
    by_cases h2 : keyCovered s.clean_wait c = true
    · obtain ⟨e, he, hek⟩ := List.any_eq_true.mp h2
      apply List.any_eq_true.mpr
      refine ⟨e, ?_, hek⟩
      simp only [Shard.ProcessCreation, Shard.UpdateCleanWaitQueue]
      exact List.mem_append_left _ he
    · have hb1 : keyCovered s.instances c = false := by
        cases hx : keyCovered s.instances c
        · rfl
        · exact absurd hx h1
      have hb2 : keyCovered s.clean_wait c = false := by
        cases hx : keyCovered s.clean_wait c
        · rfl
        · exact absurd hx h2
      have hcneed : c ∈ s.GetConnectionInfosToCreate := by
        apply List.mem_filter.mpr
        refine ⟨hc, ?_⟩
        rw [hb1, hb2]
        rfl
      apply List.any_eq_true.mpr
      refine ⟨{ info := c, inst := newRedis (s.cluster_mode && c.read_only) }, ?_,
        sameKey_refl c⟩
      simp only [Shard.ProcessCreation, Shard.UpdateCleanWaitQueue]
      apply List.mem_append_right
      exact List.mem_map_of_mem _ hcneed

theorem processCreation_need_empty (s : Shard) :
    s.ProcessCreation.shard.GetConnectionInfosToCreate = [] := by
  apply List.filter_eq_nil_iff.mpr
  intro c hc
  intro hpred
  rcases processCreation_covers s c hc with h | h
  · rw [h] at hpred
    simp at hpred
  · rw [h] at hpred
    simp at hpred

theorem ucwFold_synced_id (ci : List ConnectionInfo) :
    ∀ (l : List ConnectionStatus), (∀ x ∈ l, Synced ci x) →
      ∀ (acc : List ConnectionStatus × Bool),
        l.foldl (ucwStep ci) acc = (acc.1 ++ l, acc.2) := by
  intro l
  induction l with
  | nil => intro _ acc; simp
  | cons a t ih =>
    intro hl acc
    obtain ⟨c, hf, hro⟩ := hl a (List.mem_cons_self a t)
    simp only [List.foldl_cons]
    have hstep : ucwStep ci acc a = (acc.1 ++ [a], acc.2) := by
      simp only [ucwStep, hf, if_pos hro]
    rw [hstep, ih (fun x hx => hl x (List.mem_cons_of_mem a hx)) (acc.1 ++ [a], acc.2)]
    simp [List.append_assoc]

theorem processCreation_fixed (t : Shard)
    (hneed : t.GetConnectionInfosToCreate = [])
    (hsync : ∀ cs ∈ t.instances, Synced t.connection_infos cs) :
    t.ProcessCreation = ⟨t, false⟩ := by
  have hscan := ucwFold_synced_id t.connection_infos t.instances hsync ([], false)
  simp only [Shard.ProcessCreation, hneed, List.map_nil, Shard.UpdateCleanWaitQueue, hscan]
  simp

theorem processCreation_idem (s : Shard) :
    (s.ProcessCreation.shard.ProcessCreation).shard = s.ProcessCreation.shard ∧
    (s.ProcessCreation.shard.ProcessCreation).ret = false := by
  have h := processCreation_fixed s.ProcessCreation.shard
    (processCreation_need_empty s) (processCreation_synced s)
  rw [h]
  exact ⟨rfl, rfl⟩

/-- C7: with the shard state (including every handle's externally visible
state) and `connection_infos` unchanged between the two runs, applying
`reconcile_state` twice or `reconcile_create` twice yields exactly the state
after the first run (here even the timing fields are untouched by the second
pass, which is stronger than the claim's "modulo current and timing"), and
the second run returns false (no change). -/
theorem reconcile_idempotent (s : Shard) (now1 now2 : Nat) :
    (((s.ProcessStateUpdate now1).shard.ProcessStateUpdate now2).shard =
        (s.ProcessStateUpdate now1).shard ∧
      ((s.ProcessStateUpdate now1).shard.ProcessStateUpdate now2).ret = false)
    ∧ ((s.ProcessCreation.shard.ProcessCreation).shard = s.ProcessCreation.shard ∧
      (s.ProcessCreation.shard.ProcessCreation).ret = false) :=
  ⟨processStateUpdate_idem s now1 now2, processCreation_idem s⟩

end RedisShard
